import Mathlib

/-!
Verification of the block lifecycle engine of the `enough` focus tool.

The Rust sources are shallowly embedded here.  Strings are modelled as
`List Char`; Rust's `str::lines` (splitting at `'\n'`, with an optional final
line ending, and a `'\r'` stripped from a line only when that line was
terminated by `'\n'`) is modelled by `rustLines`, and `Vec::join("\n")` by
`joinNl`.  `str::contains(pattern)` for string patterns is substring
containment, modelled by `isSubstr`.  The mutable environment (the hosts
file, the `/tmp/enough` state directory and its files, the installed
launchd/systemd units, and the success of the external commands the code
shells out to) is a `World` record, and each fallible operation of the
source is a function `World → Except Err α × World`: the returned world
carries all writes performed before a failure, exactly as the real file
system would.
-/

set_option autoImplicit false

/-- Strings are lists of characters. -/
abbrev Str := List Char

/-- Add a character to the front of the first chunk of a chunk list. -/
def consHead (c : Char) : List Str → List Str
  | [] => [[c]]
  | l :: ls => (c :: l) :: ls

/-- Split a string at every newline; a string with `n` newlines yields
`n + 1` chunks (so the empty string yields one empty chunk). -/
def splitNl : Str → List Str
  | [] => [[]]
  | c :: cs => if c = '\n' then [] :: splitNl cs else consHead c (splitNl cs)

/-- Remove one trailing carriage return, if present. -/
def stripCr (l : Str) : Str :=
  if l.getLast? = some '\r' then l.dropLast else l

/-- The lines contributed by the final newline chunk: none when the string
ended with a newline (empty final chunk), otherwise the chunk itself,
with no carriage-return stripping since it was not newline-terminated. -/
def lastChunk (cs : List Str) : List Str :=
  match cs.getLast? with
  | some [] => []
  | some l => [l]
  | none => []

/-- Rust `str::lines`: every chunk except the last was newline-terminated and
has a trailing `'\r'` stripped; a final empty chunk (i.e. a trailing newline,
or the empty string) yields no line. -/
def rustLines (c : Str) : List Str :=
  (splitNl c).dropLast.map stripCr ++ lastChunk (splitNl c)

/-- Rust `Vec::join("\n")`. -/
def joinNl : List Str → Str
  | [] => []
  | [l] => l
  | l :: ls => l ++ '\n' :: joinNl ls

/-- Rust `str::contains(needle)` for a string needle: substring containment. -/
def isSubstr (n : Str) : Str → Bool
  | [] => n.isEmpty
  | c :: t => n.isPrefixOf (c :: t) || isSubstr n t

/-- `ENOUGH_MARKER_START` from `block.rs`. -/
def markerStart : Str := "# ENOUGH BLOCK START".data

/-- `ENOUGH_MARKER_END` from `block.rs`. -/
def markerEnd : Str := "# ENOUGH BLOCK END".data

/-- The line-filtering loop of `BlockManager::remove_existing_blocks`: a line
containing the start marker turns the in-block flag on and is dropped, a line
containing the end marker turns it off and is dropped, and other lines are
kept exactly when the flag is off. -/
def removeLoop : List Str → Bool → List Str
  | [], _ => []
  | l :: ls, inBlock =>
    if isSubstr markerStart l then removeLoop ls true
    else if isSubstr markerEnd l then removeLoop ls false
    else if inBlock then removeLoop ls inBlock
    else l :: removeLoop ls inBlock

/-- `BlockManager::remove_existing_blocks`: split into lines, filter out the
marker-delimited region(s), and re-join with newlines. -/
def remove_existing_blocks (content : Str) : Str :=
  joinNl (removeLoop (rustLines content) false)

/-- A parsed URL, reduced to the one accessor `block_websites` uses:
`Url::host_str`, which is absent for host-less URLs. -/
structure Url where
  host : Option Str
deriving DecidableEq, Repr

/-- `config::Profile` (duration in whole seconds, website URLs, app paths). -/
structure Profile where
  duration : Nat
  websites : List Url
  apps : List Str
deriving DecidableEq, Repr

/-- `block::BlockState`, the serialized record in
`/tmp/enough/current_block.yaml`. -/
structure BlockState where
  profile_name : Str
  profile : Profile
  unblock_time_secs : Nat
deriving DecidableEq, Repr

/-- `block::Status`, with the unblock time as seconds since the epoch. -/
inductive Status where
  | blocked (profile_name : Str) (unblock_time_secs : Nat)
  | unblocked
deriving DecidableEq, Repr

/-- Failure classes of the fallible operations (each `anyhow::bail!` or
fallible `std::fs` / `Command` call of the source). -/
inductive Err where
  | notFound
  | flushFailed
  | launchctlLoadFailed
  | launchctlUnloadFailed
  | ioError
deriving DecidableEq, Repr

/-- The externally observable steps of `BlockManager::block_items`, recorded
in order of execution. -/
inductive Ev where
  | cleanup
  | applyHosts
  | schedule
  | save
deriving DecidableEq, Repr

/-- The mutable environment the engine acts on: `/etc/hosts`, the
`/tmp/enough` state directory and the three files inside it, the installed
launchd plists / systemd service files (named by daemon identifier), the
resolved home directory, and the exit status each external command would
report. -/
structure World where
  hosts : Str
  stateDirExists : Bool
  stateFile : Option BlockState
  daemonId : Option Str
  homeBackup : Option Str
  homeDir : Str
  plists : List Str
  serviceFiles : List Str
  flushOk : Bool
  launchctlLoadOk : Bool
  launchctlUnloadOk : Bool
  downloadsWritable : Bool
  systemctlStopOk : Bool
  systemctlDisableOk : Bool
deriving DecidableEq, Repr

/-- Rust `str::trim_start_matches("www.")`: repeatedly removes the leading
`www.`, and does nothing when `www.` is not a prefix. -/
def trimWww : Str → Str
  | 'w' :: 'w' :: 'w' :: '.' :: rest => trimWww rest
  | l => l

/-- The denial lines `block_websites` emits for one host: both address
families for the host itself, then both families for the `www.` variant when
the host does not contain `www.`, otherwise both families for the host with
leading `www.` repeatedly stripped. -/
def hostLines (h : Str) : List Str :=
  ["0.0.0.0 ".data ++ h, "::1 ".data ++ h] ++
    (if isSubstr "www.".data h then
      ["0.0.0.0 ".data ++ trimWww h, "::1 ".data ++ trimWww h]
    else
      ["0.0.0.0 ".data ++ "www.".data ++ h, "::1 ".data ++ "www.".data ++ h])

/-- All denial lines for a website list, skipping host-less URLs, in order. -/
def entryLines : List Url → List Str
  | [] => []
  | u :: us =>
    (match u.host with
     | none => []
     | some h => hostLines h) ++ entryLines us

/-- Concatenate lines, terminating each with a newline (the repeated
`push_str(&format!("{}\n", line))` of the source). -/
def linesFlat : List Str → Str
  | [] => []
  | l :: ls => l ++ '\n' :: linesFlat ls

/-- The content `block_websites` writes back: the cleaned content, a blank
separator, the start marker line, the denial lines, the end marker line and a
trailing blank line. -/
def apply_content (websites : List Url) (content : Str) : Str :=
  remove_existing_blocks content ++
    '\n' :: '\n' ::
      (markerStart ++
        '\n' :: (linesFlat (entryLines websites) ++
          (markerEnd ++ '\n' :: '\n' :: [])))

namespace BlockManager

/-- `BlockManager::block_websites`: read the hosts file, strip any stale
region, append the fresh region, write it back, then run the cache-flush
command, whose non-zero exit is a *fatal* error (`anyhow::bail!`) raised
after the write has committed. -/
def block_websites (websites : List Url) (w : World) : Except Err Unit × World :=
  let w1 : World := { w with hosts := apply_content websites w.hosts }
  if w1.flushOk then (Except.ok (), w1) else (Except.error Err.flushFailed, w1)

/-- `BlockManager::unblock_websites`: read, strip the region, write back,
then run the cache-flush command; non-zero exit is again a fatal error raised
after the write has committed. -/
def unblock_websites (w : World) : Except Err Unit × World :=
  let w1 : World := { w with hosts := remove_existing_blocks w.hosts }
  if w1.flushOk then (Except.ok (), w1) else (Except.error Err.flushFailed, w1)

end BlockManager

namespace LaunchDaemon

/-- `LaunchDaemon::schedule` (invoked as `create_unblock_daemon` from
`block.rs`): write the plist for a fresh identifier, `launchctl load` it
(non-zero exit is fatal), then recreate `/tmp/enough` and persist the
identifier and the resolved home directory.  The fresh UUID-based identifier
is passed in as `id`. -/
def schedule (id : Str) (w : World) : Except Err Unit × World :=
  let w1 : World := { w with plists := id :: w.plists }
  if w1.launchctlLoadOk then
    (Except.ok (),
      { w1 with
        stateDirExists := true
        daemonId := some id
        homeBackup := some w1.homeDir })
  else (Except.error Err.launchctlLoadFailed, w1)

/-- `LaunchDaemon::remove`: a no-op when no identifier file exists.
Otherwise it reads the identifier and the backed-up home directory, deletes
the identifier file, the state backup and the home backup (each a fallible
`fs::remove_file`), runs `launchctl unload` — whose non-zero exit is a fatal
`anyhow::bail!` that aborts before the plist is deleted — writes a log file
under `~/Downloads`, and finally deletes the plist. -/
def remove (w : World) : Except Err Unit × World :=
  match w.daemonId with
  | none => (Except.ok (), w)
  | some id =>
    match w.homeBackup with
    | none => (Except.error Err.notFound, w)
    | some _hb =>
      let w1 : World := { w with daemonId := none }
      match w1.stateFile with
      | none => (Except.error Err.notFound, w1)
      | some _st =>
        let w2 : World := { w1 with stateFile := none, homeBackup := none }
        if w2.launchctlUnloadOk then
          if w2.downloadsWritable then
            if id ∈ w2.plists then
              (Except.ok (), { w2 with plists := w2.plists.erase id })
            else (Except.error Err.notFound, w2)
          else (Except.error Err.ioError, w2)
        else (Except.error Err.launchctlUnloadFailed, w2)

end LaunchDaemon

namespace SystemdDaemon

/-- `SystemdDaemon::remove`: a no-op when no identifier file exists.
Otherwise it reads the identifier, deletes the identifier file and the state
backup (fallible `fs::remove_file`), runs `systemctl --user stop` and
`systemctl --user disable` — whose non-zero exits are only logged as
warnings — and deletes the service file after an existence check. -/
def remove (w : World) : Except Err Unit × World :=
  match w.daemonId with
  | none => (Except.ok (), w)
  | some id =>
    let w1 : World := { w with daemonId := none }
    match w1.stateFile with
    | none => (Except.error Err.notFound, w1)
    | some _st =>
      let w2 : World := { w1 with stateFile := none }
      if id ∈ w2.serviceFiles then
        (Except.ok (), { w2 with serviceFiles := w2.serviceFiles.erase id })
      else (Except.ok (), w2)

end SystemdDaemon

namespace BlockManager

/-- `BlockManager::unblock_all`: revert the hosts file, remove the launchd
daemon, then `fs::remove_dir_all` the state directory — which *fails* with a
not-found error when the directory is already absent. -/
def unblock_all (w : World) : Except Err Unit × World :=
  match unblock_websites w with
  | (Except.error e, w1) => (Except.error e, w1)
  | (Except.ok _, w1) =>
    match LaunchDaemon.remove w1 with
    | (Except.error e, w2) => (Except.error e, w2)
    | (Except.ok _, w2) =>
      if w2.stateDirExists then
        (Except.ok (),
          { w2 with
            stateDirExists := false
            stateFile := none
            daemonId := none
            homeBackup := none })
      else (Except.error Err.notFound, w2)

/-- `BlockManager::save_block_state`: serialize the record and write it to
`state_dir/current_block.yaml`; the write fails when the state directory does
not exist. -/
def save_block_state (name : Str) (p : Profile) (t : Nat) (w : World) :
    Except Err Unit × World :=
  if w.stateDirExists then
    (Except.ok (), { w with stateFile := some ⟨name, p, t⟩ })
  else (Except.error Err.notFound, w)

/-- `BlockManager::get_status`: report `Unblocked` when the state file is
absent, otherwise `Blocked` with the record's name and unblock time; the
current time only affects what is printed, never the returned status, and
nothing is written. -/
def get_status (w : World) (_now : Nat) : Except Err Status × World :=
  match w.stateFile with
  | none => (Except.ok Status.unblocked, w)
  | some st =>
    (Except.ok (Status.blocked st.profile_name st.unblock_time_secs), w)

/-- The conditional hosts-file step of `block_items`: applied only when the
profile has websites (`if !profile.websites.is_empty()`), recorded as an
`applyHosts` event after the preceding `cleanup` event. -/
def apply_step (p : Profile) (w1 : World) : Except Err Unit × World × List Ev :=
  if p.websites.isEmpty then (Except.ok (), w1, [Ev.cleanup])
  else
    match block_websites p.websites w1 with
    | (r, w2) => (r, w2, [Ev.cleanup, Ev.applyHosts])

/-- `BlockManager::block_items`: create the state directory, clean up any
previous state via `unblock_all`, apply the hosts-file block when the profile
has websites, schedule the unblock daemon, and only then save the block
state.  The third component records the order in which the steps ran. -/
def block_items (name : Str) (p : Profile) (dur : Nat) (id : Str) (now : Nat)
    (w : World) : Except Err Unit × World × List Ev :=
  match unblock_all { w with stateDirExists := true } with
  | (Except.error e, w1) => (Except.error e, w1, [Ev.cleanup])
  | (Except.ok _, w1) =>
    match apply_step p w1 with
    | (Except.error e, w2, tr2) => (Except.error e, w2, tr2)
    | (Except.ok _, w2, tr2) =>
      match LaunchDaemon.schedule id w2 with
      | (Except.error e, w3) => (Except.error e, w3, tr2 ++ [Ev.schedule])
      | (Except.ok _, w3) =>
        match save_block_state name p (now + dur) w3 with
        | (Except.error e, w4) =>
          (Except.error e, w4, tr2 ++ [Ev.schedule, Ev.save])
        | (Except.ok _, w4) =>
          (Except.ok (), w4, tr2 ++ [Ev.schedule, Ev.save])

end BlockManager

/-- A fully healthy environment: a one-line hosts file, no state directory,
no persisted daemon, and every external command succeeding. -/
def wOk : World :=
  { hosts := "127.0.0.1 localhost\n".data
    stateDirExists := false
    stateFile := none
    daemonId := none
    homeBackup := none
    homeDir := "/Users/u".data
    plists := []
    serviceFiles := []
    flushOk := true
    launchctlLoadOk := true
    launchctlUnloadOk := true
    downloadsWritable := true
    systemctlStopOk := true
    systemctlDisableOk := true }

/-- A small demonstration profile with one website. -/
def pDemo : Profile := ⟨125, [⟨some "reddit.com".data⟩], []⟩

/-- A second demonstration profile. -/
def pDemo2 : Profile := ⟨30, [⟨some "x.y".data⟩], []⟩

deriving instance DecidableEq for Except

example : remove_existing_blocks "a\nb".data = "a\nb".data := by decide
example : remove_existing_blocks "a\nb\n".data = "a\nb".data := by decide
example :
    remove_existing_blocks
      "keep\n# ENOUGH BLOCK START\n0.0.0.0 x\n# ENOUGH BLOCK END\nalso".data =
      "keep\nalso".data := by decide
example : remove_existing_blocks "\n\n".data = "\n".data := by decide
example : remove_existing_blocks "\n".data = "".data := by decide
example : remove_existing_blocks "a\r\r\nb".data = "a\r\nb".data := by decide
example : remove_existing_blocks "a\r\nb".data = "a\nb".data := by decide

example : trimWww "www.www.a.com".data = "a.com".data := by decide
example : trimWww "a.www.b".data = "a.www.b".data := by decide

example :
    apply_content [⟨some "x".data⟩] "a".data =
      "a\n\n# ENOUGH BLOCK START\n0.0.0.0 x\n::1 x\n0.0.0.0 www.x\n::1 www.x\n# ENOUGH BLOCK END\n\n".data := by
  decide

theorem splitNl_ne_nil (c : Str) : splitNl c ≠ [] := by
  induction c with
  | nil => simp [splitNl]
  | cons a t ih =>
    simp only [splitNl]
    split
    · simp
    · cases h : splitNl t with
      | nil => simp [consHead]
      | cons l ls => simp [consHead]

theorem consHead_append (c : Char) (L M : List Str) (h : L ≠ []) :
    consHead c (L ++ M) = consHead c L ++ M := by
  cases L with
  | nil => exact absurd rfl h
  | cons l ls => simp [consHead]

theorem splitNl_append (A B : Str) :
    splitNl (A ++ '\n' :: B) = splitNl A ++ splitNl B := by
  induction A with
  | nil => simp [splitNl]
  | cons a t ih =>
    by_cases h : a = '\n'
    · simp [splitNl, h, ih]
    · have h1 : splitNl ((a :: t) ++ '\n' :: B) =
          consHead a (splitNl (t ++ '\n' :: B)) := by
        simp [splitNl, h]
      rw [h1, ih, consHead_append a (splitNl t) (splitNl B) (splitNl_ne_nil t)]
      simp [splitNl, h]

theorem splitNl_no_newline (A : Str) (h : '\n' ∉ A) : splitNl A = [A] := by
  induction A with
  | nil => rfl
  | cons a t ih =>
    have ha : ¬ a = '\n' := fun e => h (e ▸ List.mem_cons_self a t)
    simp only [splitNl, if_neg ha, ih (fun m => h (List.mem_cons_of_mem a m))]
    rfl

theorem mem_splitNl_no_newline (c : Str) : ∀ l ∈ splitNl c, '\n' ∉ l := by
  induction c with
  | nil =>
    intro l hl
    simp [splitNl] at hl
    simp [hl]
  | cons a t ih =>
    intro l hl
    simp only [splitNl] at hl
    by_cases ha : a = '\n'
    · rw [if_pos ha] at hl
      rcases List.mem_cons.mp hl with h1 | h2
      · simp [h1]
      · exact ih l h2
    · rw [if_neg ha] at hl
      cases hs : splitNl t with
      | nil => exact absurd hs (splitNl_ne_nil t)
      | cons m ms =>
        rw [hs, consHead] at hl
        rcases List.mem_cons.mp hl with h1 | h2
        · subst h1
          intro hmem
          rcases List.mem_cons.mp hmem with e | e
          · exact ha e.symm
          · exact ih m (hs ▸ List.mem_cons_self m ms) e
        · exact ih l (hs ▸ List.mem_cons_of_mem m h2)

theorem mem_splitNl_subset (c : Str) :
    ∀ l ∈ splitNl c, ∀ a ∈ l, a ∈ c := by
  induction c with
  | nil =>
    intro l hl a ha
    simp [splitNl] at hl
    subst hl
    simp at ha
  | cons x t ih =>
    intro l hl a ha
    simp only [splitNl] at hl
    by_cases hx : x = '\n'
    · rw [if_pos hx] at hl
      rcases List.mem_cons.mp hl with h1 | h2
      · subst h1; simp at ha
      · exact List.mem_cons_of_mem x (ih l h2 a ha)
    · rw [if_neg hx] at hl
      cases hs : splitNl t with
      | nil => exact absurd hs (splitNl_ne_nil t)
      | cons m ms =>
        rw [hs, consHead] at hl
        rcases List.mem_cons.mp hl with h1 | h2
        · subst h1
          rcases List.mem_cons.mp ha with e | e
          · exact e ▸ List.mem_cons_self x t
          · exact List.mem_cons_of_mem x
              (ih m (hs ▸ List.mem_cons_self m ms) a e)
        · exact List.mem_cons_of_mem x
            (ih l (hs ▸ List.mem_cons_of_mem m h2) a ha)

theorem stripCr_subset (l : Str) : stripCr l ⊆ l := by
  unfold stripCr
  split
  · exact List.dropLast_subset l
  · exact fun a h => h

theorem stripCr_of_not_mem (l : Str) (h : '\r' ∉ l) : stripCr l = l := by
  unfold stripCr
  split
  · next hl =>
    have : ('\r' : Char) ∈ l := by
      have := List.dropLast_append_getLast? _ hl
      rw [← this]
      simp
    exact absurd this h
  · rfl

theorem joinNl_cons (a : Str) (B : List Str) (hB : B ≠ []) :
    joinNl (a :: B) = a ++ '\n' :: joinNl B := by
  cases B with
  | nil => exact absurd rfl hB
  | cons b bs => rfl

theorem splitNl_joinNl (L : List Str) (hL : L ≠ [])
    (h : ∀ l ∈ L, '\n' ∉ l) : splitNl (joinNl L) = L := by
  induction L with
  | nil => exact absurd rfl hL
  | cons l ls ih =>
    cases ls with
    | nil =>
      simp only [joinNl]
      exact splitNl_no_newline l (h l (List.mem_cons_self l []))
    | cons m ms =>
      rw [joinNl_cons l (m :: ms) (by simp), splitNl_append,
        splitNl_no_newline l (h l (List.mem_cons_self l (m :: ms))),
        ih (by simp) (fun x hx => h x (List.mem_cons_of_mem l hx))]
      rfl

theorem joinNl_append (A B : List Str) (hA : A ≠ []) (hB : B ≠ []) :
    joinNl (A ++ B) = joinNl A ++ '\n' :: joinNl B := by
  induction A with
  | nil => exact absurd rfl hA
  | cons a as ih =>
    cases as with
    | nil =>
      rw [List.singleton_append, joinNl_cons a B hB]
      rfl
    | cons x xs =>
      rw [List.cons_append, joinNl_cons a ((x :: xs) ++ B) (by simp),
        joinNl_cons a (x :: xs) (by simp), ih (by simp)]
      simp

theorem isPrefixOf_subset (n : Str) :
    ∀ h : Str, n.isPrefixOf h = true → ∀ a ∈ n, a ∈ h := by
  induction n with
  | nil => simp
  | cons x xs ih =>
    intro h hp a ha
    cases h with
    | nil => simp [List.isPrefixOf] at hp
    | cons y ys =>
      simp only [List.isPrefixOf, Bool.and_eq_true, beq_iff_eq] at hp
      rcases List.mem_cons.mp ha with e | e
      · subst e
        exact hp.1 ▸ List.mem_cons_self y ys
      · exact List.mem_cons_of_mem y (ih ys hp.2 a e)

theorem isPrefixOf_append_right (n : Str) :
    ∀ A B : Str, n.isPrefixOf A = true → n.isPrefixOf (A ++ B) = true := by
  induction n with
  | nil => intro A B _; simp [List.isPrefixOf]
  | cons x xs ih =>
    intro A B hp
    cases A with
    | nil => simp [List.isPrefixOf] at hp
    | cons y ys =>
      simp only [List.isPrefixOf, Bool.and_eq_true, beq_iff_eq] at hp
      simp only [List.cons_append, List.isPrefixOf, Bool.and_eq_true,
        beq_iff_eq]
      exact ⟨hp.1, ih ys B hp.2⟩

theorem isSubstr_nil_left (h : Str) : isSubstr [] h = true := by
  cases h <;> simp [isSubstr, List.isPrefixOf, List.isEmpty]

theorem isSubstr_subset (n : Str) :
    ∀ h : Str, isSubstr n h = true → ∀ a ∈ n, a ∈ h := by
  intro h
  induction h with
  | nil =>
    intro hs a ha
    simp only [isSubstr, List.isEmpty_iff] at hs
    subst hs
    simp at ha
  | cons c t ih =>
    intro hs a ha
    simp only [isSubstr, Bool.or_eq_true] at hs
    rcases hs with hp | hr
    · exact isPrefixOf_subset n (c :: t) hp a ha
    · exact List.mem_cons_of_mem c (ih hr a ha)

theorem isSubstr_append_right (n : Str) :
    ∀ A B : Str, isSubstr n A = true → isSubstr n (A ++ B) = true := by
  intro A
  induction A with
  | nil =>
    intro B hs
    simp only [isSubstr, List.isEmpty_iff] at hs
    subst hs
    simpa using isSubstr_nil_left B
  | cons c t ih =>
    intro B hs
    simp only [isSubstr, Bool.or_eq_true] at hs
    simp only [List.cons_append, isSubstr, Bool.or_eq_true]
    rcases hs with hp | hr
    · exact Or.inl (by
        have := isPrefixOf_append_right n (c :: t) B hp
        simpa using this)
    · exact Or.inr (ih B hr)

theorem marker_false_of_no_hash (l : Str) (h : '#' ∉ l) :
    isSubstr markerStart l = false ∧ isSubstr markerEnd l = false := by
  constructor
  · cases hs : isSubstr markerStart l
    · rfl
    · exact absurd (isSubstr_subset markerStart l hs '#' (by decide)) h
  · cases hs : isSubstr markerEnd l
    · rfl
    · exact absurd (isSubstr_subset markerEnd l hs '#' (by decide)) h

theorem stripCr_substr (n l : Str)
    (h : isSubstr n (stripCr l) = true) : isSubstr n l = true := by
  unfold stripCr at h
  split at h
  · next hl =>
    have he := List.dropLast_append_getLast? _ hl
    calc isSubstr n l = isSubstr n (l.dropLast ++ ['\r']) := by rw [he]
      _ = true := isSubstr_append_right n l.dropLast ['\r'] h
  · exact h

theorem lastChunk_mem (cs : List Str) : ∀ x ∈ lastChunk cs, x ∈ cs := by
  intro x hx
  unfold lastChunk at hx
  cases h : cs.getLast? with
  | none => rw [h] at hx; simp at hx
  | some k =>
    rw [h] at hx
    cases k with
    | nil => simp at hx
    | cons y ys =>
      have he := List.dropLast_append_getLast? _ h
      have hm : x = y :: ys := by simpa using hx
      rw [hm, ← he]
      simp

theorem lastChunk_concat (M : List Str) (b : Str) (hb : b ≠ []) :
    lastChunk (M ++ [b]) = [b] := by
  unfold lastChunk
  rw [List.getLast?_concat]
  cases b with
  | nil => exact absurd rfl hb
  | cons x xs => rfl

theorem removeLoop_subset : ∀ (ls : List Str) (b : Bool), removeLoop ls b ⊆ ls := by
  intro ls
  induction ls with
  | nil => intro b; simp [removeLoop]
  | cons x xs ih =>
    intro b
    simp only [removeLoop]
    by_cases h1 : isSubstr markerStart x = true
    · rw [if_pos h1]
      exact fun a ha => List.mem_cons_of_mem x (ih true ha)
    · rw [if_neg h1]
      by_cases h2 : isSubstr markerEnd x = true
      · rw [if_pos h2]
        exact fun a ha => List.mem_cons_of_mem x (ih false ha)
      · rw [if_neg h2]
        cases b with
        | false =>
          simp only [Bool.false_eq_true, if_false]
          intro a ha
          rcases List.mem_cons.mp ha with e | e
          · exact e ▸ List.mem_cons_self x xs
          · exact List.mem_cons_of_mem x (ih false e)
        | true =>
          simp only [if_true]
          exact fun a ha => List.mem_cons_of_mem x (ih true ha)

theorem removeLoop_no_marker :
    ∀ (ls : List Str) (b : Bool) (l : Str), l ∈ removeLoop ls b →
      isSubstr markerStart l = false ∧ isSubstr markerEnd l = false := by
  intro ls
  induction ls with
  | nil => intro b l h; simp [removeLoop] at h
  | cons x xs ih =>
    intro b l h
    simp only [removeLoop] at h
    by_cases h1 : isSubstr markerStart x = true
    · rw [if_pos h1] at h; exact ih true l h
    · rw [if_neg h1] at h
      by_cases h2 : isSubstr markerEnd x = true
      · rw [if_pos h2] at h; exact ih false l h
      · rw [if_neg h2] at h
        cases b with
        | false =>
          simp only [Bool.false_eq_true, if_false] at h
          rcases List.mem_cons.mp h with e | e
          · subst e
            exact ⟨Bool.not_eq_true _ ▸ h1, Bool.not_eq_true _ ▸ h2⟩
          · exact ih false l e
        | true =>
          simp only [if_true] at h
          exact ih true l h

theorem removeLoop_markerfree_id (ls : List Str)
    (h : ∀ l ∈ ls, isSubstr markerStart l = false ∧ isSubstr markerEnd l = false) :
    removeLoop ls false = ls := by
  induction ls with
  | nil => rfl
  | cons x xs ih =>
    have hx := h x (List.mem_cons_self x xs)
    simp only [removeLoop, hx.1, hx.2, Bool.false_eq_true, if_false]
    rw [ih (fun l hl => h l (List.mem_cons_of_mem x hl))]

theorem removeLoop_append_left (A B : List Str)
    (h : ∀ l ∈ A, isSubstr markerStart l = false ∧ isSubstr markerEnd l = false) :
    removeLoop (A ++ B) false = A ++ removeLoop B false := by
  induction A with
  | nil => rfl
  | cons x xs ih =>
    have hx := h x (List.mem_cons_self x xs)
    simp only [List.cons_append, removeLoop, hx.1, hx.2, Bool.false_eq_true,
      if_false, List.append_eq]
    rw [ih (fun l hl => h l (List.mem_cons_of_mem x hl))]

theorem removeLoop_dropAll (A B : List Str)
    (h : ∀ l ∈ A, isSubstr markerStart l = false ∧ isSubstr markerEnd l = false) :
    removeLoop (A ++ B) true = removeLoop B true := by
  induction A with
  | nil => rfl
  | cons x xs ih =>
    have hx := h x (List.mem_cons_self x xs)
    simp only [List.cons_append, removeLoop, hx.1, hx.2, Bool.false_eq_true,
      if_false, if_true, List.append_eq]
    exact ih (fun l hl => h l (List.mem_cons_of_mem x hl))

theorem mem_rustLines_subset (c : Str) :
    ∀ l ∈ rustLines c, ∀ a ∈ l, a ∈ c := by
  intro l hl a ha
  unfold rustLines at hl
  rcases List.mem_append.mp hl with h1 | h2
  · rcases List.mem_map.mp h1 with ⟨k, hk, he⟩
    exact mem_splitNl_subset c k
      (List.dropLast_subset _ hk) a
      (stripCr_subset k (show a ∈ stripCr k by rw [he]; exact ha))
  · exact mem_splitNl_subset c l (lastChunk_mem _ l h2) a ha

theorem mem_rustLines_no_newline (c : Str) :
    ∀ l ∈ rustLines c, '\n' ∉ l := by
  intro l hl hn
  unfold rustLines at hl
  rcases List.mem_append.mp hl with h1 | h2
  · rcases List.mem_map.mp h1 with ⟨k, hk, he⟩
    exact mem_splitNl_no_newline c k (List.dropLast_subset _ hk)
      (stripCr_subset k (show ('\n' : Char) ∈ stripCr k by rw [he]; exact hn))
  · exact mem_splitNl_no_newline c l (lastChunk_mem _ l h2) hn

theorem rustLines_nil : rustLines [] = [] := by decide

theorem rustLines_joinNl_of (L : List Str)
    (h1 : ∀ l ∈ L, '\n' ∉ l) (h2 : ∀ l ∈ L, '\r' ∉ l)
    (h3 : L.getLast? ≠ some []) : rustLines (joinNl L) = L := by
  cases L with
  | nil => exact rustLines_nil
  | cons m ms =>
    rcases List.eq_nil_or_concat (m :: ms) with he | ⟨M, b, he⟩
    · simp at he
    · rw [List.concat_eq_append] at he
      rw [he] at h1 h2 h3 ⊢
      have hb : b ≠ [] := by
        intro e
        exact h3 (by rw [e, List.getLast?_concat])
      unfold rustLines
      rw [splitNl_joinNl (M ++ [b]) (by simp) h1, List.dropLast_concat,
        lastChunk_concat M b hb]
      have hmap : M.map stripCr = M := by
        calc M.map stripCr = M.map id :=
              List.map_congr_left (fun a ha =>
                stripCr_of_not_mem a (h2 a (List.mem_append_left [b] ha)))
          _ = M := List.map_id M
      rw [hmap]

theorem mem_rustLines_joinNl (L : List Str)
    (h1 : ∀ l ∈ L, '\n' ∉ l) :
    ∀ x ∈ rustLines (joinNl L), ∃ k ∈ L, x = stripCr k ∨ x = k := by
  intro x hx
  cases L with
  | nil => rw [joinNl, rustLines_nil] at hx; simp at hx
  | cons m ms =>
    unfold rustLines at hx
    rw [splitNl_joinNl (m :: ms) (by simp) h1] at hx
    rcases List.mem_append.mp hx with h | h
    · rcases List.mem_map.mp h with ⟨k, hk, he⟩
      exact ⟨k, List.dropLast_subset _ hk, Or.inl he.symm⟩
    · exact ⟨x, lastChunk_mem _ x h, Or.inr rfl⟩

theorem marker_false_stripCr (k : Str)
    (hk : isSubstr markerStart k = false ∧ isSubstr markerEnd k = false) :
    isSubstr markerStart (stripCr k) = false ∧
      isSubstr markerEnd (stripCr k) = false := by
  constructor
  · cases hs : isSubstr markerStart (stripCr k)
    · rfl
    · exact absurd (stripCr_substr _ _ hs) (by simp [hk.1])
  · cases hs : isSubstr markerEnd (stripCr k)
    · rfl
    · exact absurd (stripCr_substr _ _ hs) (by simp [hk.2])

theorem kept_no_newline (c : Str) :
    ∀ l ∈ removeLoop (rustLines c) false, '\n' ∉ l :=
  fun l hl => mem_rustLines_no_newline c l (removeLoop_subset _ _ hl)

theorem kept_no_cr (c : Str) (h : '\r' ∉ c) :
    ∀ l ∈ removeLoop (rustLines c) false, '\r' ∉ l :=
  fun l hl hr =>
    h (mem_rustLines_subset c l (removeLoop_subset _ _ hl) '\r' hr)

theorem output_marker_free (c : Str) :
    ∀ l ∈ rustLines (remove_existing_blocks c),
      isSubstr markerStart l = false ∧ isSubstr markerEnd l = false := by
  intro l hl
  unfold remove_existing_blocks at hl
  rcases mem_rustLines_joinNl _ (kept_no_newline c) l hl with ⟨k, hk, he⟩
  have hkm := removeLoop_no_marker _ _ k hk
  rcases he with he | he
  · exact he ▸ marker_false_stripCr k hkm
  · exact he ▸ hkm

/-- C2 (as stated, refuted): applying `remove_existing_blocks` twice does not
always equal applying it once.  A content with a trailing blank line loses
one trailing newline per application (`"\n\n" → "\n" → ""`), and a line
ending in two carriage returns before its newline keeps one `'\r'` after the
first pass that the second pass then strips. -/
theorem c2_cex_idempotence_fails :
    (remove_existing_blocks (remove_existing_blocks ('\n' :: '\n' :: [])) ≠
      remove_existing_blocks ('\n' :: '\n' :: [])) ∧
    (remove_existing_blocks (remove_existing_blocks "a\r\r\nb".data) ≠
      remove_existing_blocks "a\r\r\nb".data) := by
  decide

/-- C2 (amended): `remove_existing_blocks` is idempotent on every content
that contains no carriage return and whose retained (non-block) line list
does not end in an empty line; and, for every content whatsoever, no line of
the output contains either marker string. -/
theorem c2_removal_idempotent_amended (c : Str) :
    ('\r' ∉ c →
      (removeLoop (rustLines c) false).getLast? ≠ some ([] : Str) →
      remove_existing_blocks (remove_existing_blocks c) =
        remove_existing_blocks c) ∧
    ∀ l ∈ rustLines (remove_existing_blocks c),
      isSubstr markerStart l = false ∧ isSubstr markerEnd l = false := by
  constructor
  · intro hcr hlast
    have hfix : rustLines (remove_existing_blocks c) =
        removeLoop (rustLines c) false :=
      rustLines_joinNl_of _ (kept_no_newline c) (kept_no_cr c hcr) hlast
    show joinNl (removeLoop (rustLines (remove_existing_blocks c)) false) = _
    rw [hfix,
      removeLoop_markerfree_id _ (fun l hl => removeLoop_no_marker _ _ l hl)]
    rfl
  · exact output_marker_free c

/-- C2 witness: a typical hosts file with one stale block region, no
carriage returns and a non-empty final line. -/
theorem c2_witness :
    remove_existing_blocks
      (remove_existing_blocks
        "127.0.0.1 localhost\n# ENOUGH BLOCK START\n0.0.0.0 x\n# ENOUGH BLOCK END\nlast".data) =
      remove_existing_blocks
        "127.0.0.1 localhost\n# ENOUGH BLOCK START\n0.0.0.0 x\n# ENOUGH BLOCK END\nlast".data :=
  (c2_removal_idempotent_amended _).1 (by decide) (by decide)

/-- C10 (confirmed): marker detection is substring containment, not exact
line equality.  Every line of the output of `remove_existing_blocks` is free
of both marker strings as substrings, and in the filtering loop any line
containing the start marker anywhere is dropped and switches the in-block
state on, while any line containing only the end marker is dropped and
switches it off — whatever the line otherwise is. -/
theorem c10_markers_by_substring (content : Str) :
    (∀ l ∈ rustLines (remove_existing_blocks content),
      isSubstr markerStart l = false ∧ isSubstr markerEnd l = false) ∧
    ∀ (l : Str) (rest : List Str) (b : Bool),
      (isSubstr markerStart l = true →
        removeLoop (l :: rest) b = removeLoop rest true) ∧
      (isSubstr markerStart l = false → isSubstr markerEnd l = true →
        removeLoop (l :: rest) b = removeLoop rest false) := by
  refine ⟨output_marker_free content, fun l rest b => ⟨?_, ?_⟩⟩
  · intro h
    simp [removeLoop, h]
  · intro h1 h2
    simp [removeLoop, h1, h2]

/-- C10 witness: the user-authored line
`note: # ENOUGH BLOCK START is the marker` is not exactly a marker line yet
is dropped and turns the in-block state on, so the following ordinary line
is dropped with it. -/
theorem c10_witness :
    removeLoop ["note: # ENOUGH BLOCK START is the marker".data,
      "127.0.0.1 localhost".data] false =
      removeLoop ["127.0.0.1 localhost".data] true :=
  ((c10_markers_by_substring []).2
    "note: # ENOUGH BLOCK START is the marker".data
    ["127.0.0.1 localhost".data] false).1 (by decide)

theorem mem_entryLines_of_host (ws : List Url) (u : Url) (h : Str)
    (hu : u ∈ ws) (hh : u.host = some h) :
    ∀ l ∈ hostLines h, l ∈ entryLines ws := by
  induction ws with
  | nil => simp at hu
  | cons v vs ih =>
    intro l hl
    rcases List.mem_cons.mp hu with e | e
    · subst e
      simp only [entryLines, hh]
      exact List.mem_append_left _ hl
    · exact List.mem_append_right _ (ih e l hl)

/-- C4 (as stated, refuted): the branch condition in `block_websites` is
`host.contains("www.")`, not a prefix test.  The host `a.www.b` has no
`www.` prefix, yet its generated entries contain no denial line for
`www.a.www.b` in either address family: the code takes the `contains`
branch and (since `trim_start_matches` removes nothing) emits the bare host
twice instead. -/
theorem c4_cex_contains_not_a_prefix_test :
    ("www.".data.isPrefixOf "a.www.b".data = false) ∧
    ("0.0.0.0 www.a.www.b".data ∉ entryLines [⟨some "a.www.b".data⟩]) ∧
    ("::1 www.a.www.b".data ∉ entryLines [⟨some "a.www.b".data⟩]) ∧
    entryLines [⟨some "a.www.b".data⟩] =
      ["0.0.0.0 a.www.b".data, "::1 a.www.b".data,
       "0.0.0.0 a.www.b".data, "::1 a.www.b".data] := by
  decide

/-- C4 (amended): for every host, the region always contains denial entries
for the host itself in both address families; if the host does not contain
the substring `www.` anywhere, it additionally contains both-family entries
for the `www.`-prefixed variant; if the host does contain `www.` somewhere,
it instead contains both-family entries for the host with all *leading*
`www.` prefixes repeatedly stripped — which is the host itself again when
`www.` occurs only in the middle. -/
theorem c4_host_lines_amended (ws : List Url) (u : Url) (h : Str)
    (hu : u ∈ ws) (hh : u.host = some h) :
    ("0.0.0.0 ".data ++ h ∈ entryLines ws ∧
      "::1 ".data ++ h ∈ entryLines ws) ∧
    (isSubstr "www.".data h = false →
      "0.0.0.0 www.".data ++ h ∈ entryLines ws ∧
        "::1 www.".data ++ h ∈ entryLines ws) ∧
    (isSubstr "www.".data h = true →
      "0.0.0.0 ".data ++ trimWww h ∈ entryLines ws ∧
        "::1 ".data ++ trimWww h ∈ entryLines ws) := by
  have hm := mem_entryLines_of_host ws u h hu hh
  refine ⟨⟨hm _ (by simp [hostLines]), hm _ (by simp [hostLines])⟩,
    fun hww => ⟨hm _ ?_, hm _ ?_⟩, fun hww => ⟨hm _ ?_, hm _ ?_⟩⟩ <;>
    simp [hostLines, hww]

/-- C4 witness: `reddit.com` does not contain `www.`, so both it and
`www.reddit.com` receive IPv4 and IPv6 denial entries. -/
theorem c4_witness :
    "0.0.0.0 reddit.com".data ∈ entryLines [⟨some "reddit.com".data⟩] ∧
    "::1 reddit.com".data ∈ entryLines [⟨some "reddit.com".data⟩] ∧
    "0.0.0.0 www.reddit.com".data ∈ entryLines [⟨some "reddit.com".data⟩] ∧
    "::1 www.reddit.com".data ∈ entryLines [⟨some "reddit.com".data⟩] := by
  have hc := c4_host_lines_amended [⟨some "reddit.com".data⟩]
    ⟨some "reddit.com".data⟩ "reddit.com".data (by simp) rfl
  have hw := hc.2.1 (by decide)
  refine ⟨hc.1.1, hc.1.2, ?_, ?_⟩
  · simpa using hw.1
  · simpa using hw.2

theorem splitNl_linesFlat (L : List Str) (T : Str)
    (h : ∀ l ∈ L, '\n' ∉ l) :
    splitNl (linesFlat L ++ T) = L ++ splitNl T := by
  induction L with
  | nil => simp [linesFlat]
  | cons l ls ih =>
    have e : linesFlat (l :: ls) ++ T = l ++ '\n' :: (linesFlat ls ++ T) := by
      simp [linesFlat]
    rw [e, splitNl_append, splitNl_no_newline l (h l (List.mem_cons_self l ls)),
      ih (fun x hx => h x (List.mem_cons_of_mem l hx))]
    rfl

theorem mem_splitNl_joinNl (L : List Str) (h : ∀ l ∈ L, '\n' ∉ l) :
    ∀ x ∈ splitNl (joinNl L), x ∈ L ∨ x = [] := by
  cases L with
  | nil =>
    intro x hx
    simp [joinNl, splitNl] at hx
    exact Or.inr hx
  | cons m ms =>
    intro x hx
    rw [splitNl_joinNl _ (by simp) h] at hx
    exact Or.inl hx

theorem lastChunk_concat_nil (M : List Str) : lastChunk (M ++ [[]]) = [] := by
  unfold lastChunk
  rw [List.getLast?_concat]

theorem splitNl_region (K : Str) (E : List Str) (hE : ∀ l ∈ E, '\n' ∉ l) :
    splitNl (K ++ '\n' :: '\n' ::
        (markerStart ++ '\n' ::
          (linesFlat E ++ (markerEnd ++ '\n' :: '\n' :: [])))) =
      splitNl K ++ [] :: markerStart :: (E ++ [markerEnd, [], []]) := by
  have h3 : splitNl (markerEnd ++ '\n' :: '\n' :: []) =
      [markerEnd, [], []] := by decide
  have h1 : splitNl (markerStart ++ '\n' ::
      (linesFlat E ++ (markerEnd ++ '\n' :: '\n' :: []))) =
      markerStart :: (E ++ [markerEnd, [], []]) := by
    rw [splitNl_append, splitNl_no_newline markerStart (by decide),
      splitNl_linesFlat E _ hE, h3]
    rfl
  rw [splitNl_append K, show ∀ X : Str, splitNl ('\n' :: X) = [] :: splitNl X
      from fun X => by simp [splitNl], h1]

theorem rustLines_region (K E : List Str)
    (hKcr : ∀ l ∈ splitNl (joinNl K), '\r' ∉ l)
    (hE : ∀ l ∈ E, '\n' ∉ l ∧ '\r' ∉ l) :
    rustLines (joinNl K ++ '\n' :: '\n' ::
        (markerStart ++ '\n' ::
          (linesFlat E ++ (markerEnd ++ '\n' :: '\n' :: [])))) =
      splitNl (joinNl K) ++ [] :: markerStart :: (E ++ [markerEnd, []]) := by
  unfold rustLines
  rw [splitNl_region (joinNl K) E (fun l hl => (hE l hl).1)]
  have hshape : splitNl (joinNl K) ++
      [] :: markerStart :: (E ++ [markerEnd, [], []]) =
      (splitNl (joinNl K) ++
        [] :: markerStart :: (E ++ [markerEnd, []])) ++ [[]] := by
    simp
  rw [hshape, List.dropLast_concat, lastChunk_concat_nil, List.append_nil]
  have hid : ∀ x ∈ splitNl (joinNl K) ++
      [] :: markerStart :: (E ++ [markerEnd, []]), stripCr x = x := by
    intro x hx
    rcases List.mem_append.mp hx with h | h
    · exact stripCr_of_not_mem x (hKcr x h)
    · rcases List.mem_cons.mp h with e | h
      · subst e; decide
      · rcases List.mem_cons.mp h with e | h
        · subst e; decide
        · rcases List.mem_append.mp h with h | h
          · exact stripCr_of_not_mem x (hE x h).2
          · rcases List.mem_cons.mp h with e | h
            · subst e; decide
            · have e : x = [] := by simpa using h
              subst e; decide
  calc (splitNl (joinNl K) ++
        [] :: markerStart :: (E ++ [markerEnd, []])).map stripCr
      = (splitNl (joinNl K) ++
        [] :: markerStart :: (E ++ [markerEnd, []])).map id :=
        List.map_congr_left hid
    _ = _ := List.map_id _

/-- C3 (as stated, refuted): apply followed by revert is not byte-for-byte.
Reverting after applying to the marker-free content `127.0.0.1 localhost\n`
yields `127.0.0.1 localhost\n\n`: the revert keeps the two blank separator
lines that apply inserted around its region and re-joins lines with exactly
one trailing newline between them. -/
theorem c3_cex_not_byte_for_byte :
    remove_existing_blocks
        (apply_content [⟨some "x".data⟩] "127.0.0.1 localhost\n".data) ≠
      "127.0.0.1 localhost\n".data ∧
    remove_existing_blocks
        (apply_content [⟨some "x".data⟩] "127.0.0.1 localhost\n".data) =
      "127.0.0.1 localhost\n\n".data := by
  decide

/-- C3 (amended): for every pre-existing content without carriage returns
and every website list whose generated denial lines contain no newline,
carriage return or `#`, applying the block and then reverting yields exactly
`remove_existing_blocks content` followed by two newlines — the original
lines byte-for-byte (with any prior marker region stripped and the trailing
line ending normalized), plus the two blank separator lines the apply step
inserted. -/
theorem c3_apply_revert_amended (c : Str) (ws : List Url)
    (hcr : '\r' ∉ c)
    (hw : ∀ l ∈ entryLines ws, '\n' ∉ l ∧ '\r' ∉ l ∧ '#' ∉ l) :
    remove_existing_blocks (apply_content ws c) =
      remove_existing_blocks c ++ '\n' :: '\n' :: [] := by
  have hkNl := kept_no_newline c
  have hkCr := kept_no_cr c hcr
  have hSKcr : ∀ l ∈ splitNl (joinNl (removeLoop (rustLines c) false)),
      '\r' ∉ l := by
    intro l hl
    rcases mem_splitNl_joinNl _ hkNl l hl with h | h
    · exact hkCr l h
    · subst h; simp
  have hR : rustLines (apply_content ws c) =
      splitNl (joinNl (removeLoop (rustLines c) false)) ++
        [] :: markerStart :: (entryLines ws ++ [markerEnd, []]) :=
    rustLines_region _ _ hSKcr (fun l hl => ⟨(hw l hl).1, (hw l hl).2.1⟩)
  have hSKm : ∀ l ∈ splitNl (joinNl (removeLoop (rustLines c) false)),
      isSubstr markerStart l = false ∧ isSubstr markerEnd l = false := by
    intro l hl
    rcases mem_splitNl_joinNl _ hkNl l hl with h | h
    · exact removeLoop_no_marker (rustLines c) false l h
    · subst h; decide
  have hEm : ∀ l ∈ entryLines ws,
      isSubstr markerStart l = false ∧ isSubstr markerEnd l = false :=
    fun l hl => marker_false_of_no_hash l (hw l hl).2.2
  have hloop :
      removeLoop ([] :: markerStart :: (entryLines ws ++ [markerEnd, []]))
        false = [[], []] := by
    have h0 : isSubstr markerStart ([] : Str) = false := by decide
    have h0e : isSubstr markerEnd ([] : Str) = false := by decide
    have hSS : isSubstr markerStart markerStart = true := by decide
    simp only [removeLoop, h0, h0e, hSS, Bool.false_eq_true, if_false,
      if_true]
    rw [removeLoop_dropAll _ _ hEm]
    have : removeLoop [markerEnd, []] true = [[]] := by decide
    rw [this]
  show joinNl (removeLoop (rustLines (apply_content ws c)) false) = _
  rw [hR, removeLoop_append_left _ _ hSKm, hloop]
  show joinNl (splitNl (joinNl (removeLoop (rustLines c) false)) ++ [[], []]) =
    joinNl (removeLoop (rustLines c) false) ++ '\n' :: '\n' :: []
  cases hk : removeLoop (rustLines c) false with
  | nil => decide
  | cons m ms =>
    rw [splitNl_joinNl (m :: ms) (by simp) (hk ▸ hkNl),
      joinNl_append (m :: ms) [[], []] (by simp) (by simp)]
    rfl

/-- C3 witness: a realistic hosts file with a trailing newline and one
website to block. -/
theorem c3_witness :
    remove_existing_blocks
        (apply_content [⟨some "reddit.com".data⟩]
          "127.0.0.1 localhost\n".data) =
      remove_existing_blocks "127.0.0.1 localhost\n".data ++
        '\n' :: '\n' :: [] :=
  c3_apply_revert_amended "127.0.0.1 localhost\n".data
    [⟨some "reddit.com".data⟩] (by decide) (by decide)

theorem block_items_ok_spec (n : Str) (p : Profile) (d : Nat) (id : Str)
    (t : Nat) (w : World)
    (h : (BlockManager.block_items n p d id t w).1 = Except.ok ()) :
    (BlockManager.block_items n p d id t w).2.1.stateFile =
      some ⟨n, p, t + d⟩ ∧
    (BlockManager.block_items n p d id t w).2.2 =
      (if p.websites.isEmpty then [Ev.cleanup]
       else [Ev.cleanup, Ev.applyHosts]) ++ [Ev.schedule, Ev.save] := by
  rcases hu : BlockManager.unblock_all { w with stateDirExists := true }
    with ⟨ru, w1⟩
  cases ru with
  | error e =>
    have hbi : BlockManager.block_items n p d id t w =
        (Except.error e, w1, [Ev.cleanup]) := by
      simp only [BlockManager.block_items, hu]
    rw [hbi] at h
    exact absurd h (by simp)
  | ok u0 =>
    rcases ha : BlockManager.apply_step p w1 with ⟨ra, w2, tr2⟩
    cases ra with
    | error e =>
      have hbi : BlockManager.block_items n p d id t w =
          (Except.error e, w2, tr2) := by
        simp only [BlockManager.block_items, hu, ha]
      rw [hbi] at h
      exact absurd h (by simp)
    | ok u1 =>
      rcases hs : LaunchDaemon.schedule id w2 with ⟨rs, w3⟩
      cases rs with
      | error e =>
        have hbi : BlockManager.block_items n p d id t w =
            (Except.error e, w3, tr2 ++ [Ev.schedule]) := by
          simp only [BlockManager.block_items, hu, ha, hs]
        rw [hbi] at h
        exact absurd h (by simp)
      | ok u2 =>
        rcases hv : BlockManager.save_block_state n p (t + d) w3 with ⟨rv, w4⟩
        cases rv with
        | error e =>
          have hbi : BlockManager.block_items n p d id t w =
              (Except.error e, w4, tr2 ++ [Ev.schedule, Ev.save]) := by
            simp only [BlockManager.block_items, hu, ha, hs, hv]
          rw [hbi] at h
          exact absurd h (by simp)
        | ok u3 =>
          have hbi : BlockManager.block_items n p d id t w =
              (Except.ok (), w4, tr2 ++ [Ev.schedule, Ev.save]) := by
            simp only [BlockManager.block_items, hu, ha, hs, hv]
          rw [hbi]
          constructor
          · show w4.stateFile = some ⟨n, p, t + d⟩
            unfold BlockManager.save_block_state at hv
            split at hv
            · have hw4 : w4 = { w3 with stateFile := some ⟨n, p, t + d⟩ } :=
                (congrArg Prod.snd hv).symm
              rw [hw4]
            · simp at hv
          · show tr2 ++ [Ev.schedule, Ev.save] = _
            have htr : tr2 = if p.websites.isEmpty then [Ev.cleanup]
                else [Ev.cleanup, Ev.applyHosts] := by
              unfold BlockManager.apply_step at ha
              split at ha
              · next hws =>
                have h3 := congrArg (fun q => q.2.2) ha
                rw [if_pos hws]
                simpa using h3.symm
              · next hws =>
                rcases hb : BlockManager.block_websites p.websites w1
                  with ⟨rb, wb⟩
                rw [hb] at ha
                have h3 := congrArg (fun q => q.2.2) ha
                rw [if_neg hws]
                simpa using h3.symm
            rw [htr]

/-- C1 (confirmed): the state store holds a single record at the fixed path
`current_block.yaml`, so after a successful `block_items("a", p1, d1)` the
loaded state is exactly the `("a", p1)` record with unblock time `now + d1`,
and after a subsequent successful `block_items("b", p2, d2)` it is exactly
the `("b", p2)` record: the defensive `unblock_all` clear plus the single
fixed-path write fully supersedes the prior record, never merging it. -/
theorem c1_single_record_superseded (n1 n2 : Str) (p1 p2 : Profile)
    (d1 d2 t1 t2 : Nat) (id1 id2 : Str) (w : World)
    (h1 : (BlockManager.block_items n1 p1 d1 id1 t1 w).1 = Except.ok ())
    (h2 : (BlockManager.block_items n2 p2 d2 id2 t2
        (BlockManager.block_items n1 p1 d1 id1 t1 w).2.1).1 = Except.ok ()) :
    (BlockManager.block_items n1 p1 d1 id1 t1 w).2.1.stateFile =
      some ⟨n1, p1, t1 + d1⟩ ∧
    (BlockManager.block_items n2 p2 d2 id2 t2
        (BlockManager.block_items n1 p1 d1 id1 t1 w).2.1).2.1.stateFile =
      some ⟨n2, p2, t2 + d2⟩ :=
  ⟨(block_items_ok_spec n1 p1 d1 id1 t1 w h1).1,
   (block_items_ok_spec n2 p2 d2 id2 t2 _ h2).1⟩

/-- C1 witness: two consecutive successful blocks in a healthy environment;
the second record fully replaces the first. -/
theorem c1_witness :
    (BlockManager.block_items "a".data pDemo 125 "i".data 100 wOk).2.1.stateFile =
      some ⟨"a".data, pDemo, 100 + 125⟩ ∧
    (BlockManager.block_items "b".data pDemo2 30 "j".data 500
        (BlockManager.block_items "a".data pDemo 125 "i".data 100
          wOk).2.1).2.1.stateFile =
      some ⟨"b".data, pDemo2, 500 + 30⟩ :=
  c1_single_record_superseded "a".data "b".data pDemo pDemo2 125 30 100 500
    "i".data "j".data wOk (by decide) (by decide)

/-- C9 (as stated, refuted): in a successful run `block_items` performs
cleanup, then the hosts-file apply, then *schedules the daemon*, and only
then saves the state record: `save` never occurs before `schedule` in the
event trace, contradicting the claimed save-then-schedule order. -/
theorem c9_cex_schedule_precedes_save :
    ((BlockManager.block_items "a".data pDemo 125 "i".data 100 wOk).1 =
      Except.ok ()) ∧
    (BlockManager.block_items "a".data pDemo 125 "i".data 100 wOk).2.2 =
      [Ev.cleanup, Ev.applyHosts, Ev.schedule, Ev.save] ∧
    Ev.save ∉ ((BlockManager.block_items "a".data pDemo 125 "i".data 100
        wOk).2.2.takeWhile (fun e => !(e == Ev.schedule))) ∧
    Ev.save ∈ (BlockManager.block_items "a".data pDemo 125 "i".data 100
        wOk).2.2 := by
  decide

/-- C9 (amended): a successful `block_items` run on a profile with websites
performs its steps in the order cleanup, hosts-file apply, daemon schedule,
state save — scheduling strictly precedes persisting the record (which is
what recreates the state directory the save needs). -/
theorem c9_order_amended (n : Str) (p : Profile) (d t : Nat) (id : Str)
    (w : World) (hne : p.websites ≠ [])
    (h : (BlockManager.block_items n p d id t w).1 = Except.ok ()) :
    (BlockManager.block_items n p d id t w).2.2 =
      [Ev.cleanup, Ev.applyHosts, Ev.schedule, Ev.save] := by
  have hs := (block_items_ok_spec n p d id t w h).2
  have hws : p.websites.isEmpty = false := by
    cases hp : p.websites with
    | nil => exact absurd hp hne
    | cons a l => simp [hp]
  rw [hs]
  simp [hws]

/-- C9 witness: the concrete successful run of the counterexample world. -/
theorem c9_witness :
    (BlockManager.block_items "a".data pDemo 125 "i".data 100 wOk).2.2 =
      [Ev.cleanup, Ev.applyHosts, Ev.schedule, Ev.save] :=
  c9_order_amended "a".data pDemo 125 100 "i".data wOk (by decide) (by decide)

/-- C5 (confirmed): `get_status` returns the world unchanged (it performs no
write to the hosts file, state record, or daemon identifier), reports
`Unblocked` exactly when the record is absent, and reports `Blocked` with
the record's own name and unblock time whenever a record is present — with
no condition on the current time, so an unblock time in the past still
reports `Blocked`, and repeated calls keep returning the same answer. -/
theorem c5_status_pure (w : World) (now : Nat) :
    ((BlockManager.get_status w now).2 = w) ∧
    (w.stateFile = none →
      (BlockManager.get_status w now).1 = Except.ok Status.unblocked) ∧
    (∀ st, w.stateFile = some st →
      (BlockManager.get_status w now).1 =
        Except.ok (Status.blocked st.profile_name st.unblock_time_secs)) ∧
    (∀ m, BlockManager.get_status (BlockManager.get_status w now).2 m =
      BlockManager.get_status w m) := by
  cases hst : w.stateFile with
  | none => simp [BlockManager.get_status, hst]
  | some st => simp [BlockManager.get_status, hst]

/-- C5 witness: a record whose unblock time (5) is long past the current
time (1000) still reports `Blocked`, and the world is untouched. -/
theorem c5_witness :
    (BlockManager.get_status
        { wOk with
            stateDirExists := true
            stateFile := some ⟨"p".data, pDemo, 5⟩ } 1000).1 =
      Except.ok (Status.blocked "p".data 5) ∧
    (BlockManager.get_status
        { wOk with
            stateDirExists := true
            stateFile := some ⟨"p".data, pDemo, 5⟩ } 1000).2 =
      { wOk with
          stateDirExists := true
          stateFile := some ⟨"p".data, pDemo, 5⟩ } := by
  have h := c5_status_pure
    { wOk with
        stateDirExists := true
        stateFile := some ⟨"p".data, pDemo, 5⟩ } 1000
  exact ⟨h.2.2.1 ⟨"p".data, pDemo, 5⟩ rfl, h.1⟩

/-- C6 (as stated, refuted): a failing cache-flush command does not leave
the operation successful — `block_websites` raises a fatal
`anyhow::bail!` — although the hosts-file write has indeed already
committed when the failure is reported. -/
theorem c6_cex_flush_failure_fatal :
    (BlockManager.block_websites [⟨some "reddit.com".data⟩]
        { wOk with flushOk := false }).1 ≠ Except.ok () ∧
    (BlockManager.block_websites [⟨some "reddit.com".data⟩]
        { wOk with flushOk := false }).2.hosts =
      apply_content [⟨some "reddit.com".data⟩] wOk.hosts := by
  decide

/-- C6 (amended): when the cache-flush command fails, both the apply and the
revert return a *fatal* `flushFailed` error rather than a warning, but in
both cases the hosts-file write has already committed: the new (resp.
cleaned) content is in place despite the reported failure. -/
theorem c6_flush_failure_amended (ws : List Url) (w : World)
    (hf : w.flushOk = false) :
    ((BlockManager.block_websites ws w).1 = Except.error Err.flushFailed ∧
      (BlockManager.block_websites ws w).2.hosts = apply_content ws w.hosts) ∧
    ((BlockManager.unblock_websites w).1 = Except.error Err.flushFailed ∧
      (BlockManager.unblock_websites w).2.hosts =
        remove_existing_blocks w.hosts) := by
  refine ⟨⟨?_, ?_⟩, ?_, ?_⟩ <;>
    simp [BlockManager.block_websites, BlockManager.unblock_websites, hf]

/-- C6 witness: the amended behaviour at a concrete failing-flush world. -/
theorem c6_witness :
    ((BlockManager.block_websites [⟨some "x.y".data⟩]
        { wOk with flushOk := false }).1 = Except.error Err.flushFailed ∧
      (BlockManager.block_websites [⟨some "x.y".data⟩]
        { wOk with flushOk := false }).2.hosts =
        apply_content [⟨some "x.y".data⟩]
          ({ wOk with flushOk := false } : World).hosts) ∧
    ((BlockManager.unblock_websites { wOk with flushOk := false }).1 =
        Except.error Err.flushFailed ∧
      (BlockManager.unblock_websites { wOk with flushOk := false }).2.hosts =
        remove_existing_blocks ({ wOk with flushOk := false } : World).hosts) :=
  c6_flush_failure_amended [⟨some "x.y".data⟩]
    { wOk with flushOk := false } (by decide)

/-- C7 (as stated, refuted): on the launchd implementation a failing
`launchctl unload` is *fatal*: `remove` returns an error and the plist (the
unit definition file) is left in place — only the identifier files were
deleted before the bail.  This contradicts the claim that a stop/unregister
failure is a warning after which all artifacts are still deleted and remove
returns success. -/
theorem c7_cex_launchd_unload_fatal :
    (LaunchDaemon.remove
        { wOk with
          stateDirExists := true
          stateFile := some ⟨"p".data, pDemo, 5⟩
          daemonId := some "i".data
          homeBackup := some "/Users/u".data
          plists := ["i".data]
          launchctlUnloadOk := false }).1 ≠ Except.ok () ∧
    "i".data ∈ (LaunchDaemon.remove
        { wOk with
          stateDirExists := true
          stateFile := some ⟨"p".data, pDemo, 5⟩
          daemonId := some "i".data
          homeBackup := some "/Users/u".data
          plists := ["i".data]
          launchctlUnloadOk := false }).2.plists := by
  decide

/-- C7 (amended): the warning-only teardown holds on the systemd
implementation — with both `systemctl stop` and `systemctl disable`
failing, `remove` still returns success, the identifier file and state
backup are deleted and the service file is removed — whereas on the launchd
implementation a failing `launchctl unload` aborts with an error, the plist
is not deleted, and the identifier file is already gone. -/
theorem c7_teardown_amended (w : World) (id : Str) :
    (w.daemonId = some id → w.stateFile.isSome = true →
      w.systemctlStopOk = false → w.systemctlDisableOk = false →
      (SystemdDaemon.remove w).1 = Except.ok () ∧
      (SystemdDaemon.remove w).2.daemonId = none ∧
      (SystemdDaemon.remove w).2.stateFile = none ∧
      (SystemdDaemon.remove w).2.serviceFiles = w.serviceFiles.erase id) ∧
    (w.daemonId = some id → w.homeBackup.isSome = true →
      w.stateFile.isSome = true → w.launchctlUnloadOk = false →
      (LaunchDaemon.remove w).1 = Except.error Err.launchctlUnloadFailed ∧
      (LaunchDaemon.remove w).2.plists = w.plists ∧
      (LaunchDaemon.remove w).2.daemonId = none) := by
  constructor
  · intro hid hst _ _
    rcases Option.isSome_iff_exists.mp hst with ⟨st, hst2⟩
    by_cases hmem : id ∈ w.serviceFiles
    · simp [SystemdDaemon.remove, hid, hst2, hmem]
    · simp [SystemdDaemon.remove, hid, hst2, hmem,
        List.erase_of_not_mem hmem]
  · intro hid hhb hst hul
    rcases Option.isSome_iff_exists.mp hhb with ⟨hb, hhb2⟩
    rcases Option.isSome_iff_exists.mp hst with ⟨st, hst2⟩
    simp [LaunchDaemon.remove, hid, hhb2, hst2, hul]

/-- C7 witness: both clauses of the amended claim at concrete worlds in
which the service-manager stop/unregister commands fail. -/
theorem c7_witness :
    ((SystemdDaemon.remove
        { wOk with
          stateDirExists := true
          stateFile := some ⟨"p".data, pDemo, 5⟩
          daemonId := some "s".data
          serviceFiles := ["s".data]
          systemctlStopOk := false
          systemctlDisableOk := false }).1 = Except.ok () ∧
      (SystemdDaemon.remove
        { wOk with
          stateDirExists := true
          stateFile := some ⟨"p".data, pDemo, 5⟩
          daemonId := some "s".data
          serviceFiles := ["s".data]
          systemctlStopOk := false
          systemctlDisableOk := false }).2.daemonId = none ∧
      (SystemdDaemon.remove
        { wOk with
          stateDirExists := true
          stateFile := some ⟨"p".data, pDemo, 5⟩
          daemonId := some "s".data
          serviceFiles := ["s".data]
          systemctlStopOk := false
          systemctlDisableOk := false }).2.stateFile = none ∧
      (SystemdDaemon.remove
        { wOk with
          stateDirExists := true
          stateFile := some ⟨"p".data, pDemo, 5⟩
          daemonId := some "s".data
          serviceFiles := ["s".data]
          systemctlStopOk := false
          systemctlDisableOk := false }).2.serviceFiles =
        (["s".data] : List Str).erase "s".data) ∧
    ((LaunchDaemon.remove
        { wOk with
          stateDirExists := true
          stateFile := some ⟨"p".data, pDemo, 5⟩
          daemonId := some "i".data
          homeBackup := some "/Users/u".data
          plists := ["i".data]
          launchctlUnloadOk := false }).1 =
        Except.error Err.launchctlUnloadFailed ∧
      (LaunchDaemon.remove
        { wOk with
          stateDirExists := true
          stateFile := some ⟨"p".data, pDemo, 5⟩
          daemonId := some "i".data
          homeBackup := some "/Users/u".data
          plists := ["i".data]
          launchctlUnloadOk := false }).2.plists = ["i".data] ∧
      (LaunchDaemon.remove
        { wOk with
          stateDirExists := true
          stateFile := some ⟨"p".data, pDemo, 5⟩
          daemonId := some "i".data
          homeBackup := some "/Users/u".data
          plists := ["i".data]
          launchctlUnloadOk := false }).2.daemonId = none) := by
  constructor
  · exact (c7_teardown_amended
      { wOk with
        stateDirExists := true
        stateFile := some ⟨"p".data, pDemo, 5⟩
        daemonId := some "s".data
        serviceFiles := ["s".data]
        systemctlStopOk := false
        systemctlDisableOk := false } "s".data).1
      (by decide) (by decide) (by decide) (by decide)
  · exact (c7_teardown_amended
      { wOk with
        stateDirExists := true
        stateFile := some ⟨"p".data, pDemo, 5⟩
        daemonId := some "i".data
        homeBackup := some "/Users/u".data
        plists := ["i".data]
        launchctlUnloadOk := false } "i".data).2
      (by decide) (by decide) (by decide) (by decide)

/-- C8 (as stated, refuted): calling `unblock_all` when the state directory
is already absent is *not* safe: `fs::remove_dir_all` fails with a
not-found error, so the operation returns an error instead of success. -/
theorem c8_cex_clear_absent_errors :
    (BlockManager.unblock_all wOk).1 = Except.error Err.notFound ∧
    (BlockManager.unblock_all wOk).1 ≠ Except.ok () := by
  decide

/-- C8 (amended): when the state directory is absent (and no daemon
identifier is persisted, the cache flush succeeding), `unblock_all` reverts
the hosts file and then fails with a not-found error at the
`remove_dir_all` step; the hosts-file revert has still been performed. -/
theorem c8_clear_absent_amended (w : World)
    (hdir : w.stateDirExists = false) (hdid : w.daemonId = none)
    (hf : w.flushOk = true) :
    (BlockManager.unblock_all w).1 = Except.error Err.notFound ∧
    (BlockManager.unblock_all w).2.hosts = remove_existing_blocks w.hosts := by
  simp [BlockManager.unblock_all, BlockManager.unblock_websites,
    LaunchDaemon.remove, hf, hdid, hdir]

/-- C8 witness: the healthy empty environment, whose state directory does
not exist. -/
theorem c8_witness :
    (BlockManager.unblock_all wOk).1 = Except.error Err.notFound ∧
    (BlockManager.unblock_all wOk).2.hosts =
      remove_existing_blocks wOk.hosts :=
  c8_clear_absent_amended wOk (by decide) (by decide) (by decide)
